import Mathlib

/-!
Verification development for the Calo log-analysis pipeline (src/main.py).

Strings from the Python program are modelled as `List Char` (Python compares
strings by code points, which agrees with the lexicographic order on the
character lists used here).  Python floats are modelled as exact rational
numbers `ℚ`: every numeric comparison appearing in the claims (`< 0`,
`> 1e-6`, z-score thresholds) is stated on the same rational expressions the
code computes; the standard-deviation comparison `|x| > 3*sd` is encoded
squared (`x*x > 9*var`), which is equivalent for nonnegative reals.
`pandas.to_datetime` is an external library routine; analysis definitions
take an arbitrary timestamp parser `toDT : List Char → Option ℚ` as a
parameter (`none` models `NaT`, i.e. `errors='coerce'`), so every theorem
holds for any parser.
-/

namespace Calo

/-- ASCII whitespace, the `\s` class of the Python regexes restricted to
ASCII (the log lines in scope are ASCII). -/
def isSpaceC (c : Char) : Bool :=
  c = ' ' || c = '\t' || c = '\n' || c = '\r' || c = '\x0b' || c = '\x0c'

/-- The character class `[0-9a-f\-]` of the RequestId capture groups in
`start_re`/`end_re` (src/main.py lines 33-34). -/
def isHexDash (c : Char) : Bool :=
  c.isDigit || ('a' ≤ c && c ≤ 'f') || c = '-'

/-- Lowercase hexadecimal digit (used by the spec-side canonical-UUID check). -/
def isHexDigit (c : Char) : Bool :=
  c.isDigit || ('a' ≤ c && c ≤ 'f')

/-- Python `str.strip()` (ASCII whitespace model). -/
def pyStrip (l : List Char) : List Char :=
  (((l.dropWhile isSpaceC).reverse).dropWhile isSpaceC).reverse

/-- Python `str.split(sep)` for a one-character separator: the list of
chunks between occurrences of `sep`; always nonempty. -/
def pySplit (sep : Char) : List Char → List (List Char)
  | [] => [[]]
  | c :: cs =>
    match pySplit sep cs with
    | [] => [[c]]
    | h :: t => if c = sep then [] :: h :: t else (c :: h) :: t

/-- Drop an expected literal from the front of a list, or fail. -/
def dropLitP : List Char → List Char → Option (List Char)
  | [], l => some l
  | _ :: _, [] => none
  | p :: ps, c :: cs => if c = p then dropLitP ps cs else none

/-- Drop `n` expected decimal digits from the front of a list, or fail. -/
def dropDigits : Nat → List Char → Option (List Char)
  | 0, l => some l
  | _ + 1, [] => none
  | n + 1, c :: cs => if c.isDigit then dropDigits n cs else none

/-- The `^\d{4}-\d{2}-\d{2}T` prefix shared by `start_re` and `end_re`:
four digits, `-`, two digits, `-`, two digits, `T`; returns the rest of
the line. -/
def dtPre (l : List Char) : Option (List Char) :=
  (dropDigits 4 l).bind fun l1 =>
  (dropLitP ['-'] l1).bind fun l2 =>
  (dropDigits 2 l2).bind fun l3 =>
  (dropLitP ['-'] l3).bind fun l4 =>
  (dropDigits 2 l4).bind fun l5 =>
  dropLitP ['T'] l5

/-- Attempt the tail of a marker regex at the current position: the literal
(`START RequestId:` or `END RequestId:`), then `\s+` (one or more
whitespace characters; since whitespace and `[0-9a-f\-]` are disjoint the
greedy maximal run is the only possible match), then the 36-character
capture `[0-9a-f\-]{36}`.  Returns the captured identifier. -/
def tryMarkerAt (lit : List Char) (l : List Char) : Option (List Char) :=
  match dropLitP lit l with
  | none => none
  | some [] => none
  | some (c :: cs) =>
    if isSpaceC c then
      if ((cs.dropWhile isSpaceC).take 36).length = 36 &&
          ((cs.dropWhile isSpaceC).take 36).all isHexDash then
        some ((cs.dropWhile isSpaceC).take 36)
      else none
    else none

/-- Scan for the marker tail, modelling the greedy `.*` before it: the
regex engine backtracks from the longest `.*`, so the LAST position whose
tail matches wins; `.` does not cross a newline. -/
def scanMarker (lit : List Char) : List Char → Option (List Char)
  | [] => none
  | c :: cs =>
    let later := if c = '\n' then none else scanMarker lit cs
    match later with
    | some r => some r
    | none => tryMarkerAt lit (c :: cs)

/-- The literal inside `start_re` (src/main.py line 33). -/
def startLit : List Char := ('S' :: "TART RequestId:".data)

/-- The literal inside `end_re` (src/main.py line 34). -/
def endLit : List Char := ('E' :: "ND RequestId:".data)

/-- `start_re.match(s)`: the captured `rid` group, or `none` when the line
does not match (src/main.py line 33). -/
def startRid (s : List Char) : Option (List Char) :=
  (dtPre s).bind (scanMarker startLit)

/-- `end_re.match(s)`: the captured `rid` group, or `none` when the line
does not match (src/main.py line 34). -/
def endRid (s : List Char) : Option (List Char) :=
  (dtPre s).bind (scanMarker endLit)

/-- The start-timestamp heuristic of src/main.py line 67:
`s.split('Z')[0] + 'Z' if 'Z' in s else s[:25]`. -/
def tsOf (s : List Char) : List Char :=
  if s.contains 'Z' then ((pySplit 'Z' s).headD []) ++ ['Z'] else s.take 25

/-! ## Field Extractor (src/main.py lines 36-48, 85-91)

Each pattern of `fields_patterns` is modelled by a `tryAt` function giving
the capture group when the pattern matches at the current position;
`re.search` semantics (leftmost match) is the `searchFrom` scan.  All
quantifiers in these patterns are over character classes disjoint from
their successors, so the greedy maximal-run reading used below is exactly
the regex semantics. -/

/-- `re.search` driver: try the pattern at each position, leftmost wins. -/
def searchFrom {α : Type} (tryAt : List Char → Option α) : List Char → Option α
  | [] => tryAt []
  | c :: cs =>
    match tryAt (c :: cs) with
    | some r => some r
    | none => searchFrom tryAt cs

/-- Character class `[0-9\.\-]` of the numeric field patterns. -/
def isNumCls (c : Char) : Bool := c.isDigit || c = '.' || c = '-'

/-- Pattern `LABEL:\s*([0-9\.\-]+)` at the current position. -/
def tryNumField (lab : List Char) (l : List Char) : Option (List Char) :=
  (dropLitP lab l).bind fun r =>
    let r2 := r.dropWhile isSpaceC
    let cap := r2.takeWhile isNumCls
    if cap.isEmpty then none else some cap

/-- Pattern `LABEL:\s*'([^']+)'` at the current position. -/
def tryQuoteField (lab : List Char) (l : List Char) : Option (List Char) :=
  (dropLitP lab l).bind fun r =>
    match r.dropWhile isSpaceC with
    | '\'' :: rest =>
      let cap := rest.takeWhile (fun c => c ≠ '\'')
      if cap.isEmpty then none
      else
        match rest.drop cap.length with
        | '\'' :: _ => some cap
        | _ => none
    | _ => none

/-- Character class `[^",\'}]` of the JSON-style field patterns. -/
def isJsonCls (c : Char) : Bool :=
  !(c = '"' || c = ',' || c = '\'' || c = '}')

/-- Pattern `"LABEL":"?([^",\'}]+)` at the current position. -/
def tryJsonField (lab : List Char) (l : List Char) : Option (List Char) :=
  (dropLitP lab l).bind fun r =>
    let r2 := match r with
              | '"' :: rest => rest
              | rest => rest
    let cap := r2.takeWhile isJsonCls
    if cap.isEmpty then none else some cap

/-- Case-insensitive literal drop (pattern compiled with `re.I`). -/
def dropLitCI : List Char → List Char → Option (List Char)
  | [], l => some l
  | _ :: _, [] => none
  | p :: ps, c :: cs => if c.toLower = p.toLower then dropLitCI ps cs else none

/-- Pattern `updatePaymentBalance:\s*(true|false)` with `re.I` at the
current position; the capture is the matched text itself. -/
def tryBoolField (l : List Char) : Option (List Char) :=
  (dropLitCI "updatePaymentBalance:".data l).bind fun r =>
    let r2 := r.dropWhile isSpaceC
    match dropLitCI "true".data r2 with
    | some _ => some (r2.take 4)
    | none =>
      match dropLitCI "false".data r2 with
      | some _ => some (r2.take 5)
      | none => none

/-- A structured record as built by `_extract_record` (src/main.py lines
85-91): `requestId`, `file` and `start_ts` are always set; each named field
is present exactly when its pattern matched somewhere in the block text. -/
structure Rec0 where
  requestId : List Char
  file : List Char
  start_ts : Option (List Char)
  paymentBalance : Option (List Char) := none
  updatePaymentBalance : Option (List Char) := none
  oldBalance : Option (List Char) := none
  newBalance : Option (List Char) := none
  amount : Option (List Char) := none
  action : Option (List Char) := none
  transactionAction : Option (List Char) := none
  walletId : Option (List Char) := none
  userId : Option (List Char) := none
  email : Option (List Char) := none
  id : Option (List Char) := none
  deriving Repr, DecidableEq

instance : Inhabited Rec0 := ⟨⟨[], [], none, none, none, none, none, none, none, none, none, none, none, none⟩⟩

/-- `_extract_record(text, rid, gz_path, start_ts, patterns)`
(src/main.py lines 85-91): first match per field over the joined block
text, absent fields omitted. -/
def extractRecord (text : List Char) (rid : List Char) (gzPath : List Char)
    (startTs : Option (List Char)) : Rec0 :=
  { requestId := rid
    file := gzPath
    start_ts := startTs
    paymentBalance := searchFrom (tryNumField "paymentBalance:".data) text
    updatePaymentBalance := searchFrom tryBoolField text
    oldBalance := searchFrom (tryNumField "oldBalance:".data) text
    newBalance := searchFrom (tryNumField "newBalance:".data) text
    amount := searchFrom (tryNumField "amount:".data) text
    action := searchFrom (tryQuoteField "action:".data) text
    transactionAction := searchFrom (tryQuoteField "transactionAction:".data) text
    walletId := searchFrom (tryJsonField "\"walletId\":".data) text
    userId := searchFrom (tryQuoteField "userId:".data) text
    email := searchFrom (tryJsonField "\"email\":".data) text
    id := searchFrom (tryJsonField "\"id\":".data) text }

/-! ## Block Reconstructor (src/main.py lines 50-82) -/

/-- Python `"\n".join(lines)`. -/
def joinNL : List (List Char) → List Char
  | [] => []
  | [l] => l
  | l :: ls => l ++ '\n' :: joinNL ls

/-- The per-source mutable state of `parse_logs`: accumulated `records`
plus `current_id`, `buffer_lines`, `start_ts` (src/main.py lines 55-57). -/
structure PSt where
  records : List Rec0
  current_id : Option (List Char)
  buffer_lines : List (List Char)
  start_ts : Option (List Char)

/-- Python truthiness of the optional string `current_id`
(`if current_id ...`): not `None` and nonempty. -/
def truthyId : Option (List Char) → Bool
  | none => false
  | some c => !c.isEmpty

/-- One iteration of the `for raw in f` loop of `parse_logs`
(src/main.py lines 59-76), processing a raw line for source `gz`.  A line
matching neither marker (or an end marker for a different/absent block)
falls through to the `if current_id` append at line 75. -/
def stepLine (gz : List Char) (st : PSt) (raw : List Char) : PSt :=
  match startRid (pyStrip raw) with
  | some rid =>
    ⟨if truthyId st.current_id && !st.buffer_lines.isEmpty then
        st.records ++ [extractRecord (joinNL st.buffer_lines)
          (st.current_id.getD []) gz st.start_ts]
      else st.records,
      some rid, [pyStrip raw], some (tsOf (pyStrip raw))⟩
  | none =>
    match endRid (pyStrip raw) with
    | some rid =>
      if truthyId st.current_id && decide (st.current_id = some rid) then
        ⟨st.records ++ [extractRecord (joinNL (st.buffer_lines ++ [pyStrip raw]))
            rid gz st.start_ts],
          none, [], none⟩
      else if truthyId st.current_id then
        { st with buffer_lines := st.buffer_lines ++ [pyStrip raw] }
      else st
    | none =>
      if truthyId st.current_id then
        { st with buffer_lines := st.buffer_lines ++ [pyStrip raw] }
      else st

/-- The end-of-file flush (src/main.py lines 77-78). -/
def finishSource (st : PSt) (gz : List Char) : List Rec0 :=
  if truthyId st.current_id && !st.buffer_lines.isEmpty then
    st.records ++ [extractRecord (joinNL st.buffer_lines)
      (st.current_id.getD []) gz st.start_ts]
  else st.records

/-- Records emitted for one log source: the whole line loop of
`parse_logs` plus the final flush (src/main.py lines 54-78). -/
def parseSource (gz : List Char) (rawLines : List (List Char)) : List Rec0 :=
  finishSource (rawLines.foldl (stepLine gz) ⟨[], none, [], none⟩) gz

/-- `parse_logs` over a set of (successfully opened) sources
(src/main.py lines 50-82): concatenation in source order.  Sources that
raise on open/decode are skipped by the `except` clause and simply do not
appear in the input list. -/
def parse_logs (sources : List (List Char × List (List Char))) : List Rec0 :=
  sources.flatMap fun p => parseSource p.1 p.2

/-! ## Numeric coercion (src/main.py lines 99-105)

`to_float` calls Python `float()` and maps failures to NaN, modelled as
`none`.  The grammar implemented covers `[sign] (digits [. digits] | . digits)
[(e|E) [sign] digits]` with surrounding whitespace; extracted field values
match `[0-9\.\-]+` so the omitted `float()` forms (`inf`, `nan`, digit
underscores) can never occur in this pipeline. -/

/-- Consume a maximal digit run, accumulating its value and length. -/
def digitsAux : ℕ → ℕ → List Char → ℕ × ℕ × List Char
  | acc, n, [] => (acc, n, [])
  | acc, n, c :: cs =>
    if c.isDigit then digitsAux (10 * acc + (c.toNat - 48)) (n + 1) cs
    else (acc, n, c :: cs)

/-- Optional sign; returns the sign as `1` or `-1` and the rest. -/
def signAux : List Char → ℤ × List Char
  | '+' :: r => (1, r)
  | '-' :: r => (-1, r)
  | r => (1, r)

/-- Python `float(s)` on the strings this pipeline produces, as an exact
rational; `none` models a raised `ValueError` (so `to_float` yields NaN). -/
def pyFloat (s : List Char) : Option ℚ :=
  let t := pyStrip s
  let (sgn, t1) := signAux t
  let (ip, ic, t2) := digitsAux 0 0 t1
  let (fp, fc, t3) :=
    match t2 with
    | '.' :: r => let (fp, fc, r2) := digitsAux 0 0 r; (fp, fc, r2)
    | r => (0, 0, r)
  if ic + fc = 0 then none
  else
    let mantNum : ℤ := sgn * (ip * 10 ^ fc + fp)
    match t3 with
    | [] => some (mkRat mantNum (10 ^ fc))
    | e :: r =>
      if e = 'e' || e = 'E' then
        let (esgn, r1) := signAux r
        let (ev, ec, r2) := digitsAux 0 0 r1
        if ec = 0 || !r2.isEmpty then none
        else if esgn = 1 then some (mkRat (mantNum * 10 ^ ev) (10 ^ fc))
        else some (mkRat mantNum (10 ^ fc * 10 ^ ev))
      else none

/-- `to_float` (src/main.py lines 99-101) lifted to an optional cell value:
an absent cell is NaN, a string cell is parsed by `float()`. -/
def to_float (cell : Option (List Char)) : Option ℚ := cell.bind pyFloat

/-! ## Comparators for `sort_values` (src/main.py line 122)

`df.sort_values(['userId','walletId','ts','requestId'], na_position='last')`
sorts lexicographically by the four columns, each `NaN`/`NaT` sorting last.
Pandas' quicksort leaves ties in all four keys in unspecified order; the
model breaks such ties by original row position (a deterministic refinement
of the source's behavior).  String columns compare by code points, exactly
the lexicographic order on `List Char` below. -/

/-- Three-way comparison from a linear order. -/
def cmpLin {α : Type} [LinearOrder α] (a b : α) : Ordering :=
  if a < b then .lt else if a = b then .eq else .gt

/-- Lift a comparison to optional values with `none` sorting LAST
(`na_position='last'`). -/
def cmpOptLast {α : Type} (cmp : α → α → Ordering) : Option α → Option α → Ordering
  | none, none => .eq
  | none, some _ => .gt
  | some _, none => .lt
  | some a, some b => cmp a b

theorem cmpLin_eq_iff {α : Type} [LinearOrder α] {a b : α} :
    cmpLin a b = .eq ↔ a = b := by
  unfold cmpLin
  rcases lt_trichotomy a b with h | h | h
  · simp [h, ne_of_lt h]
  · simp [h, lt_irrefl]
  · simp [not_lt_of_gt h, (ne_of_lt h).symm]

theorem cmpLin_ne_gt_iff {α : Type} [LinearOrder α] {a b : α} :
    cmpLin a b ≠ .gt ↔ a ≤ b := by
  unfold cmpLin
  rcases lt_trichotomy a b with h | h | h
  · simp [h, le_of_lt h]
  · simp [h, lt_irrefl]
  · simp [not_lt_of_gt h, (ne_of_lt h).symm, not_le_of_gt h]

instance {α : Type} [LinearOrder α] : Batteries.TransCmp (cmpLin (α := α)) where
  symm a b := by
    unfold cmpLin
    rcases lt_trichotomy a b with h | h | h
    · simp [h, h.ne, h.ne', not_lt_of_gt h, Ordering.swap]
    · simp [h, lt_irrefl, Ordering.swap]
    · simp [h, h.ne, h.ne', not_lt_of_gt h, Ordering.swap]
  le_trans {a b c} h1 h2 := by
    rw [cmpLin_ne_gt_iff] at h1 h2 ⊢
    exact le_trans h1 h2

theorem cmpOptLast_eq_iff {α : Type} {cmp : α → α → Ordering}
    (hcmp : ∀ {a b : α}, cmp a b = .eq ↔ a = b) :
    ∀ {x y : Option α}, cmpOptLast cmp x y = .eq ↔ x = y
  | none, none => by simp [cmpOptLast]
  | none, some _ => by simp [cmpOptLast]
  | some _, none => by simp [cmpOptLast]
  | some a, some b => by simp [cmpOptLast, hcmp]

instance {α : Type} {cmp : α → α → Ordering} [inst : Batteries.TransCmp cmp] :
    Batteries.TransCmp (cmpOptLast cmp) where
  symm x y := by
    cases x <;> cases y
    · rfl
    · rfl
    · rfl
    · exact inst.symm _ _
  le_trans {x y z} h1 h2 := by
    cases x <;> cases y <;> cases z <;>
      simp only [cmpOptLast] at h1 h2 ⊢ <;>
      first
      | exact inst.le_trans h1 h2
      | exact absurd rfl h1
      | exact absurd rfl h2
      | simp

/-! ## Analysis Engine (src/main.py lines 94-161)

Rows of the DataFrame are addressed by their original position `i` (the
`RangeIndex`); `recAt df i` is row `i`.  All derived columns are per-row
functions of `df`.  The comparison tolerance `1e-6` is modelled as the
exact rational `10⁻⁶`. -/

/-- Row access by original DataFrame position. -/
def recAt (df : List Rec0) (i : ℕ) : Rec0 := df.getD i default

/-- Column `ts` (src/main.py line 97): `pd.to_datetime(start_ts,
errors='coerce')` for an arbitrary parser `toDT`; `none` is `NaT`. -/
def tsF (toDT : List Char → Option ℚ) (df : List Rec0) (i : ℕ) : Option ℚ :=
  ((recAt df i).start_ts).bind toDT

/-- Coerced `oldBalance` column (src/main.py lines 103-105). -/
def fOB (df : List Rec0) (i : ℕ) : Option ℚ := to_float (recAt df i).oldBalance

/-- Coerced `newBalance` column (src/main.py lines 103-105). -/
def fNB (df : List Rec0) (i : ℕ) : Option ℚ := to_float (recAt df i).newBalance

/-- Coerced `amount` column (src/main.py lines 103-105). -/
def fAmt (df : List Rec0) (i : ℕ) : Option ℚ := to_float (recAt df i).amount

/-- Coerced `paymentBalance` column (src/main.py lines 103-105). -/
def fPB (df : List Rec0) (i : ℕ) : Option ℚ := to_float (recAt df i).paymentBalance

/-- Column `delta = newBalance - oldBalance` (src/main.py line 107); NaN
propagates. -/
def deltaF (df : List Rec0) (i : ℕ) : Option ℚ :=
  match fNB df i, fOB df i with
  | some b, some a => some (b - a)
  | _, _ => none

/-- `best_sign` (src/main.py lines 109-112): `1.0 if abs(dlt - amt) <=
abs(dlt + amt) else -1.0`, NaN when either operand is NaN. -/
def best_sign (amt dlt : Option ℚ) : Option ℚ :=
  match amt, dlt with
  | some a, some d => some (if |d - a| ≤ |d + a| then 1 else -1)
  | _, _ => none

/-- Column `amount_sign` (src/main.py line 114). -/
def amount_signF (df : List Rec0) (i : ℕ) : Option ℚ :=
  best_sign (fAmt df i) (deltaF df i)

/-- Column `expected_delta = amount * amount_sign` (src/main.py line 115). -/
def expected_deltaF (df : List Rec0) (i : ℕ) : Option ℚ :=
  match fAmt df i, amount_signF df i with
  | some a, some s => some (a * s)
  | _, _ => none

/-- The float literal `1e-6` modelled as the exact rational `10⁻⁶`. -/
def tol : ℚ := mkRat 1 1000000

/-- Column `mismatch = (delta - expected_delta).abs() > 1e-6`
(src/main.py line 116); any NaN comparison is `False`. -/
def mismatchF (df : List Rec0) (i : ℕ) : Bool :=
  match deltaF df i, expected_deltaF df i with
  | some d, some e => decide (|d - e| > tol)
  | _, _ => false

/-- Column `overdraft_before = oldBalance < 0` (src/main.py line 118);
`NaN < 0` is `False`. -/
def overdraft_beforeF (df : List Rec0) (i : ℕ) : Bool :=
  match fOB df i with
  | some b => decide (b < 0)
  | none => false

/-- Column `overdraft_after = newBalance < 0` (src/main.py line 119). -/
def overdraft_afterF (df : List Rec0) (i : ℕ) : Bool :=
  match fNB df i with
  | some b => decide (b < 0)
  | none => false

/-- Column `overdraft_cross` (src/main.py line 120). -/
def overdraft_crossF (df : List Rec0) (i : ℕ) : Bool :=
  !overdraft_beforeF df i && overdraft_afterF df i

/-- Comparator on row positions by `(ts, requestId)` with `NaT` last and
original position as final tie-break: the order of rows inside one
`(userId, walletId)` group. -/
def cmpGrp (toDT : List Char → Option ℚ) (df : List Rec0) : ℕ → ℕ → Ordering :=
  compareLex (Ordering.byKey (tsF toDT df) (cmpOptLast cmpLin))
  (compareLex (Ordering.byKey (fun i => (recAt df i).requestId) cmpLin)
  cmpLin)

/-- Comparator on row positions by `(walletId, ts, requestId)`: the order
of rows inside one `userId` group. -/
def cmpUser (toDT : List Char → Option ℚ) (df : List Rec0) : ℕ → ℕ → Ordering :=
  compareLex (Ordering.byKey (fun i => (recAt df i).walletId) (cmpOptLast cmpLin))
  (cmpGrp toDT df)

/-- The `sort_values(['userId','walletId','ts','requestId'],
na_position='last')` comparator on row positions (src/main.py line 122),
with original position as final tie-break (see section header). -/
def cmpIdx (toDT : List Char → Option ℚ) (df : List Rec0) : ℕ → ℕ → Ordering :=
  compareLex (Ordering.byKey (fun i => (recAt df i).userId) (cmpOptLast cmpLin))
  (cmpUser toDT df)

/-- The sort relation induced by `cmpIdx`. -/
abbrev leIdx (toDT : List Char → Option ℚ) (df : List Rec0) (i j : ℕ) : Prop :=
  cmpIdx toDT df i j ≠ .gt

/-- Row positions of the sorted DataFrame (src/main.py line 122). -/
def sortedIdx (toDT : List Char → Option ℚ) (df : List Rec0) : List ℕ :=
  List.insertionSort (leIdx toDT df) (List.range df.length)

/-- The `groupby(['userId','walletId'])` key of a row. -/
def gKey (df : List Rec0) (i : ℕ) : Option (List Char) × Option (List Char) :=
  ((recAt df i).userId, (recAt df i).walletId)

/-- Column `next_old` (src/main.py lines 123-126):
`groupby(['userId','walletId'])['oldBalance'].shift(-1)` on the sorted
frame — the `oldBalance` of the next row with the same group key in sorted
order; rows whose key contains NaN are excluded from every group. -/
def next_oldF (toDT : List Char → Option ℚ) (df : List Rec0) (i : ℕ) : Option ℚ :=
  match (recAt df i).userId, (recAt df i).walletId with
  | some _, some _ =>
    ((((sortedIdx toDT df).dropWhile (fun j => j != i)).drop 1).find?
      (fun j => gKey df j == gKey df i)).bind (fOB df)
  | _, _ => none

/-- Column `flow_break` (src/main.py line 127). -/
def flow_breakF (toDT : List Char → Option ℚ) (df : List Rec0) (i : ℕ) : Bool :=
  match fNB df i, next_oldF toDT df i with
  | some a, some b => decide (|a - b| > tol)
  | _, _ => false

/-- Sorted row positions of the `groupby('userId')` group of `u`
(src/main.py lines 136-137, 144-145). -/
def userRows (toDT : List Char → Option ℚ) (df : List Rec0) (u : List Char) : List ℕ :=
  (sortedIdx toDT df).filter (fun i => (recAt df i).userId == some u)

/-- `vals = sub['delta'].dropna()` for the group of `u`
(src/main.py line 130). -/
def knownDeltas (toDT : List Char → Option ℚ) (df : List Rec0) (u : List Char) : List ℚ :=
  (userRows toDT df u).filterMap (deltaF df)

/-- `vals.mean()`. -/
def meanQ (l : List ℚ) : ℚ := l.sum / l.length

/-- `vals.std(ddof=1)` squared: the sample variance with denominator
`n - 1`.  The code compares `abs(x - mu) > 3 * sd` and tests `sd == 0`;
both are stated below on the variance (`sd == 0 ↔ var == 0` and
`|y| > 3·sd ↔ y² > 9·var`, as both sides are nonnegative), which keeps the
whole model inside exact rational arithmetic. -/
def svarQ (l : List ℚ) : ℚ :=
  ((l.map (fun x => (x - meanQ l) * (x - meanQ l))).sum) / ((l.length : ℚ) - 1)

/-- Column `delta_anomaly` (src/main.py lines 129-139): the per-group
z-score flag; rows with NaN `userId` get NaN from the grouped apply and
become `False` via `fillna(False)` (line 142). -/
def delta_anomalyF (toDT : List Char → Option ℚ) (df : List Rec0) (i : ℕ) : Bool :=
  match (recAt df i).userId with
  | none => false
  | some u =>
    if (knownDeltas toDT df u).length < 5 then false
    else if svarQ (knownDeltas toDT df u) = 0 then false
    else
      match deltaF df i with
      | some d => decide ((d - meanQ (knownDeltas toDT df u))
          * (d - meanQ (knownDeltas toDT df u)) > 9 * svarQ (knownDeltas toDT df u))
      | none => false

/-- One row of the enriched DataFrame returned by `analyze`. -/
structure Row where
  idx : ℕ
  rec0 : Rec0
  ts : Option ℚ
  paymentBalance : Option ℚ
  oldBalance : Option ℚ
  newBalance : Option ℚ
  amount : Option ℚ
  delta : Option ℚ
  amount_sign : Option ℚ
  expected_delta : Option ℚ
  next_old : Option ℚ
  mismatch : Bool
  overdraft_before : Bool
  overdraft_after : Bool
  overdraft_cross : Bool
  flow_break : Bool
  delta_anomaly : Bool
  deriving Repr, DecidableEq

/-- Assemble the enriched row at position `i`. -/
def mkRow (toDT : List Char → Option ℚ) (df : List Rec0) (i : ℕ) : Row :=
  { idx := i
    rec0 := recAt df i
    ts := tsF toDT df i
    paymentBalance := fPB df i
    oldBalance := fOB df i
    newBalance := fNB df i
    amount := fAmt df i
    delta := deltaF df i
    amount_sign := amount_signF df i
    expected_delta := expected_deltaF df i
    next_old := next_oldF toDT df i
    mismatch := mismatchF df i
    overdraft_before := overdraft_beforeF df i
    overdraft_after := overdraft_afterF df i
    overdraft_cross := overdraft_crossF df i
    flow_break := flow_breakF toDT df i
    delta_anomaly := delta_anomalyF toDT df i }

/-- Collapse consecutive equal keys of an already-grouped list. -/
def uniqConsec : List (List Char) → List (List Char)
  | [] => []
  | [x] => [x]
  | x :: y :: t => if x = y then uniqConsec (y :: t) else x :: uniqConsec (y :: t)

/-- The distinct non-NaN `userId` keys in groupby order (pandas sorts group
keys ascending; `sortedIdx` orders by `userId` first, so collapsing
consecutive duplicates of the sorted column gives exactly that order). -/
def userKeys (toDT : List Char → Option ℚ) (df : List Rec0) : List (List Char) :=
  uniqConsec ((sortedIdx toDT df).filterMap (fun i => (recAt df i).userId))

/-- NaN-skipping `min` of a column. -/
def listMinQ (l : List ℚ) : Option ℚ :=
  l.foldr (fun x acc => match acc with | none => some x | some y => some (min x y)) none

/-- NaN-skipping `max` of a column. -/
def listMaxQ (l : List ℚ) : Option ℚ :=
  l.foldr (fun x acc => match acc with | none => some x | some y => some (max x y)) none

/-- One row of the `per_user` summary (src/main.py lines 144-157). -/
structure PerUser where
  userId : List Char
  first_ts : Option ℚ
  last_ts : Option ℚ
  events : ℕ
  overdraft_events : ℕ
  overdraft_crossings : ℕ
  mismatches : ℕ
  flow_breaks : ℕ
  last_balance : Option ℚ
  min_balance : Option ℚ
  max_balance : Option ℚ
  final_overdraft : Bool
  deriving Repr, DecidableEq

/-- The aggregate row for user `u` (src/main.py lines 145-157): all
aggregations run over the group's rows in sorted-frame order; in
particular `last_balance` is `x.dropna().iloc[-1]` of `newBalance` in that
order, and `final_overdraft = last_balance < 0` (`NaN < 0` is `False`). -/
def mkPerUser (toDT : List Char → Option ℚ) (df : List Rec0) (u : List Char) : PerUser :=
  let rows := userRows toDT df u
  let balances := rows.filterMap (fNB df)
  { userId := u
    first_ts := listMinQ (rows.filterMap (tsF toDT df))
    last_ts := listMaxQ (rows.filterMap (tsF toDT df))
    events := rows.length
    overdraft_events := (rows.filter (overdraft_afterF df)).length
    overdraft_crossings := (rows.filter (overdraft_crossF df)).length
    mismatches := (rows.filter (mismatchF df)).length
    flow_breaks := (rows.filter (flow_breakF toDT df)).length
    last_balance := balances.getLast?
    min_balance := listMinQ balances
    max_balance := listMaxQ balances
    final_overdraft :=
      match balances.getLast? with
      | some b => decide (b < 0)
      | none => false }

/-- The two outputs of `analyze` (src/main.py line 161): the enriched
frame (in its final, sorted order) and the per-user summary. -/
structure AnalyzeOut where
  rows : List Row
  per_user : List PerUser
  deriving Repr, DecidableEq

/-- A column exists in `pd.DataFrame(records)` iff some record set the
key (a field is set exactly when its pattern matched). -/
def hasCol (df : List Rec0) (f : Rec0 → Option (List Char)) : Bool :=
  df.any fun r => (f r).isSome

/-- `analyze` (src/main.py lines 94-161).  Unguarded column accesses raise
`KeyError` when the column is absent: `df['newBalance']` and
`df['oldBalance']` at line 107, `df['amount']` at line 115, and
`sort_values(['userId','walletId',...])` at line 122 (the guards at lines
123, 136 and 144 are only reached when the sort succeeded).  A raised
`KeyError` is the `.error` case. -/
def analyze (toDT : List Char → Option ℚ) (df : List Rec0) : Except String AnalyzeOut :=
  if !hasCol df (fun r => r.newBalance) then .error "KeyError: newBalance"
  else if !hasCol df (fun r => r.oldBalance) then .error "KeyError: oldBalance"
  else if !hasCol df (fun r => r.amount) then .error "KeyError: amount"
  else if !hasCol df (fun r => r.userId) then .error "KeyError: userId"
  else if !hasCol df (fun r => r.walletId) then .error "KeyError: walletId"
  else .ok
    { rows := (sortedIdx toDT df).map (mkRow toDT df)
      per_user := (userKeys toDT df).map (mkPerUser toDT df) }

/-! ## Lemmas about the Block Reconstructor -/

theorem tryMarkerAt_length {lit l rid} (h : tryMarkerAt lit l = some rid) :
    rid.length = 36 := by
  unfold tryMarkerAt at h
  split at h
  · cases h
  · cases h
  · split at h
    · split at h
      · rename_i hlen
        cases h
        exact of_decide_eq_true (Bool.and_elim_left hlen)
      · cases h
    · cases h

theorem scanMarker_length {lit rid} : ∀ {l}, scanMarker lit l = some rid →
    rid.length = 36
  | [], h => by simp [scanMarker] at h
  | c :: cs, h => by
    unfold scanMarker at h
    by_cases hnl : c = '\n'
    · simp only [hnl, if_pos rfl] at h
      exact tryMarkerAt_length h
    · simp only [hnl, if_neg hnl] at h
      rcases hl : scanMarker lit cs with _ | r
      · rw [hl] at h
        exact tryMarkerAt_length h
      · rw [hl] at h
        cases h
        exact scanMarker_length hl

theorem startRid_length {s rid} (h : startRid s = some rid) : rid.length = 36 := by
  unfold startRid at h
  rcases hd : dtPre s with _ | r
  · rw [hd] at h; simp at h
  · rw [hd] at h
    exact scanMarker_length h

theorem startRid_ne_nil {s rid} (h : startRid s = some rid) : rid ≠ [] := by
  intro hnil
  have := startRid_length h
  rw [hnil] at this
  simp at this

/-- The tag a Record carries for claim C1: its identifier and raw start
timestamp. -/
def tagOf (r : Rec0) : List Char × Option (List Char) := (r.requestId, r.start_ts)

/-- The tags contributed by the start-marker lines of a raw line list. -/
def startTags (rawLines : List (List Char)) : List (List Char × Option (List Char)) :=
  ((rawLines.map pyStrip).filter (fun s => (startRid s).isSome)).map
    (fun s => ((startRid s).getD [], some (tsOf s)))

/-- The state invariant of the `parse_logs` loop: whenever a block is
open, its identifier string is nonempty and the buffer is nonempty. -/
def GoodSt (st : PSt) : Prop :=
  ∀ c, st.current_id = some c → c ≠ [] ∧ st.buffer_lines ≠ []

theorem stepLine_start {gz st raw rid} (hs : startRid (pyStrip raw) = some rid) :
    stepLine gz st raw =
      ⟨if truthyId st.current_id && !st.buffer_lines.isEmpty then
          st.records ++ [extractRecord (joinNL st.buffer_lines)
            (st.current_id.getD []) gz st.start_ts]
        else st.records,
        some rid, [pyStrip raw], some (tsOf (pyStrip raw))⟩ := by
  unfold stepLine
  rw [hs]

theorem stepLine_end {gz st raw rid} (hs : startRid (pyStrip raw) = none)
    (he : endRid (pyStrip raw) = some rid)
    (hc : truthyId st.current_id && decide (st.current_id = some rid)) :
    stepLine gz st raw =
      ⟨st.records ++ [extractRecord (joinNL (st.buffer_lines ++ [pyStrip raw]))
          rid gz st.start_ts], none, [], none⟩ := by
  unfold stepLine
  rw [hs, he]
  simp [hc]

theorem stepLine_append {gz st raw} (hs : startRid (pyStrip raw) = none)
    (hc : ∀ rid, endRid (pyStrip raw) = some rid →
      (truthyId st.current_id && decide (st.current_id = some rid)) = false)
    (ht : truthyId st.current_id = true) :
    stepLine gz st raw = { st with buffer_lines := st.buffer_lines ++ [pyStrip raw] } := by
  unfold stepLine
  rw [hs]
  rcases he : endRid (pyStrip raw) with _ | rid
  · simp [ht]
  · have hd := hc rid he
    rw [ht] at hd
    simp only [Bool.true_and] at hd
    simp [ht, of_decide_eq_false hd]

theorem stepLine_skip {gz st raw} (hs : startRid (pyStrip raw) = none)
    (ht : truthyId st.current_id = false) :
    stepLine gz st raw = st := by
  unfold stepLine
  rw [hs]
  rcases he : endRid (pyStrip raw) with _ | rid
  · simp [ht]
  · simp [ht]

/-- `finishSource` in terms of the pending tag, under the loop invariant. -/
theorem finishSource_eq {gz} {st : PSt} (h : GoodSt st) :
    (finishSource st gz).map tagOf
      = st.records.map tagOf ++
        (match st.current_id with
         | some c => [(c, st.start_ts)]
         | none => []) := by
  unfold finishSource
  rcases hc : st.current_id with _ | c
  · simp [truthyId, hc]
  · obtain ⟨hne, hbuf⟩ := h c hc
    simp [truthyId, hc, hne, hbuf, List.isEmpty_iff, tagOf, extractRecord]

theorem goodSt_stepLine {gz st l} (h : GoodSt st) : GoodSt (stepLine gz st l) := by
  rcases hs : startRid (pyStrip l) with _ | rid
  · by_cases ht : truthyId st.current_id
    · by_cases hend : ∀ rid, endRid (pyStrip l) = some rid →
          (truthyId st.current_id && decide (st.current_id = some rid)) = false
      · rw [stepLine_append hs hend ht]
        intro c hc
        exact ⟨(h c hc).1, by simp⟩
      · push_neg at hend
        obtain ⟨rid, he, hcnd⟩ := hend
        rw [stepLine_end hs he (by revert hcnd; cases hb : (truthyId st.current_id &&
          decide (st.current_id = some rid)) <;> simp)]
        intro c hc
        cases hc
    · rw [stepLine_skip hs (by revert ht; cases truthyId st.current_id <;> simp)]
      exact h
  · rw [stepLine_start hs]
    intro c hc
    cases hc
    exact ⟨startRid_ne_nil hs, by simp⟩

theorem finishSource_map_tagOf_stepLine {gz st l} (h : GoodSt st) :
    (finishSource (stepLine gz st l) gz).map tagOf
      = (finishSource st gz).map tagOf ++ startTags [l] := by
  rcases hs : startRid (pyStrip l) with _ | rid
  · have htags : startTags [l] = [] := by
      simp [startTags, hs]
    rw [htags, List.append_nil]
    by_cases ht : truthyId st.current_id
    · by_cases hend : ∀ rid, endRid (pyStrip l) = some rid →
          (truthyId st.current_id && decide (st.current_id = some rid)) = false
      · rw [stepLine_append hs hend ht]
        have hgood2 : GoodSt { st with buffer_lines := st.buffer_lines ++ [pyStrip l] } := by
          intro c hc
          exact ⟨(h c hc).1, by simp⟩
        rw [finishSource_eq h, finishSource_eq hgood2]
      · push_neg at hend
        obtain ⟨rid, he, hcnd⟩ := hend
        have hcnd' : (truthyId st.current_id && decide (st.current_id = some rid)) = true := by
          revert hcnd; cases hb : (truthyId st.current_id &&
            decide (st.current_id = some rid)) <;> simp
        have hid : st.current_id = some rid :=
          of_decide_eq_true (Bool.and_elim_right hcnd')
        rw [stepLine_end hs he hcnd']
        have hgood2 : GoodSt (⟨st.records ++ [extractRecord
            (joinNL (st.buffer_lines ++ [pyStrip l])) rid gz st.start_ts],
            none, [], none⟩ : PSt) := by
          intro c hc
          cases hc
        rw [finishSource_eq h, finishSource_eq hgood2]
        simp [hid, tagOf, extractRecord]
    · have htf : truthyId st.current_id = false := by
        revert ht
        cases truthyId st.current_id <;> simp
      rw [stepLine_skip hs htf]
  · have htags : startTags [l] = [((startRid (pyStrip l)).getD [], some (tsOf (pyStrip l)))] := by
      simp [startTags, hs]
    rw [stepLine_start hs]
    have hgood2 : GoodSt (⟨if truthyId st.current_id && !st.buffer_lines.isEmpty then
        st.records ++ [extractRecord (joinNL st.buffer_lines)
          (st.current_id.getD []) gz st.start_ts]
        else st.records,
        some rid, [pyStrip l], some (tsOf (pyStrip l))⟩ : PSt) := by
      intro c hc
      cases hc
      exact ⟨startRid_ne_nil hs, by simp⟩
    rw [finishSource_eq h, finishSource_eq hgood2, htags]
    simp only [hs, Option.getD_some]
    rcases hc : st.current_id with _ | c
    · simp [truthyId, hc]
    · obtain ⟨hne, hbuf⟩ := h c hc
      simp [truthyId, hc, hne, hbuf, List.isEmpty_iff, tagOf, extractRecord]

theorem startTags_cons {l : List Char} {ls : List (List Char)} :
    startTags (l :: ls) = startTags [l] ++ startTags ls := by
  simp [startTags, List.filter_cons]
  split <;> simp

theorem finishSource_map_tagOf_foldl {gz : List Char} :
    ∀ (lines : List (List Char)) (st : PSt), GoodSt st →
    (finishSource (lines.foldl (stepLine gz) st) gz).map tagOf
      = (finishSource st gz).map tagOf ++ startTags lines
  | [], st, h => by simp [startTags]
  | l :: ls, st, h => by
    rw [List.foldl_cons,
      finishSource_map_tagOf_foldl ls _ (goodSt_stepLine h),
      finishSource_map_tagOf_stepLine h, List.append_assoc, ← startTags_cons]

/-- C1: for every log source, the emitted Records correspond one-to-one and
in order to the start-marker lines of the source: each start marker opens a
block that is flushed exactly once (by a matching end marker, by preemption
from a later start marker, or by source exhaustion), and the resulting
Record carries that start line's identifier and captured start timestamp;
lines seen while no block is open contribute no Record. -/
theorem c1_one_record_per_start (gz : List Char) (rawLines : List (List Char)) :
    (parseSource gz rawLines).map (fun r => (r.requestId, r.start_ts))
      = ((rawLines.map pyStrip).filter (fun s => (startRid s).isSome)).map
          (fun s => ((startRid s).getD [], some (tsOf s))) := by
  have hinit : GoodSt ⟨[], none, [], none⟩ := by
    intro c hc
    cases hc
  have := @finishSource_map_tagOf_foldl gz rawLines ⟨[], none, [], none⟩ hinit
  unfold parseSource
  rw [show (fun r : Rec0 => (r.requestId, r.start_ts)) = tagOf from rfl, this]
  simp [finishSource, truthyId, startTags]

/-! ## Claim C9: the start-timestamp capture -/

theorem pySplit_ne_nil {sep : Char} : ∀ {l : List Char}, pySplit sep l ≠ []
  | [] => by simp [pySplit]
  | c :: cs => by
    unfold pySplit
    rcases h : pySplit sep cs with _ | ⟨x, xs⟩
    · simp
    · by_cases hc : c = sep <;> simp [hc]

theorem pySplit_headD {sep : Char} :
    ∀ {l : List Char}, (pySplit sep l).headD [] = l.takeWhile (fun c => c ≠ sep)
  | [] => by simp [pySplit]
  | c :: cs => by
    have ih : (pySplit sep cs).headD [] = cs.takeWhile (fun c => c ≠ sep) :=
      pySplit_headD
    unfold pySplit
    rcases h : pySplit sep cs with _ | ⟨x, xs⟩
    · exact absurd h pySplit_ne_nil
    · rw [h] at ih
      by_cases hc : c = sep
      · subst hc
        simp [List.takeWhile_cons]
      · simp only [if_neg hc, List.headD_cons, List.takeWhile_cons]
        simp only [List.headD_cons, ne_eq, decide_not] at ih
        simp [hc, ih]

/-- Spec-side reading of C9: the captured timestamp is the portion of the
line strictly before the `Z` when one is present, else the first 25
characters. -/
def specStartTsC9 (s : List Char) : List Char :=
  if s.contains 'Z' then s.takeWhile (fun c => c ≠ 'Z') else s.take 25

/-- C9 counterexample: on a start line containing `Z`, the code keeps the
`Z` (`split('Z')[0] + 'Z'`), so the captured value is not the portion
before the `Z` marker. -/
theorem c9_counterexample :
    tsOf "2024-05-05T10:00:00.000Z rest".data
        ≠ specStartTsC9 "2024-05-05T10:00:00.000Z rest".data
      ∧ ("2024-05-05T10:00:00.000Z rest".data).contains 'Z' = true := by
  constructor
  · decide
  · decide

/-- C9 (amended): the captured `start_ts` equals the portion of the line
before the first `Z` WITH the `Z` re-appended when the line contains one,
and otherwise the first 25 characters of the line. -/
theorem c9_amended (s : List Char) :
    tsOf s = if s.contains 'Z' then (s.takeWhile (fun c => c ≠ 'Z')) ++ ['Z']
             else s.take 25 := by
  unfold tsOf
  by_cases h : s.contains 'Z'
  · rw [if_pos h, if_pos h, pySplit_headD]
  · rw [if_neg h, if_neg h]

/-! ## Claim C8: marker-line syntax -/

theorem dropLitP_eq_some_iff : ∀ {lit s r : List Char},
    dropLitP lit s = some r ↔ s = lit ++ r
  | [], s, r => by simp [dropLitP, eq_comm]
  | p :: ps, [], r => by simp [dropLitP]
  | p :: ps, c :: cs, r => by
    unfold dropLitP
    by_cases hc : c = p
    · subst hc
      simp [dropLitP_eq_some_iff]
    · simp [hc]

theorem dropDigits_eq_some_iff : ∀ {n : ℕ} {s r : List Char},
    dropDigits n s = some r ↔ ∃ p, s = p ++ r ∧ p.length = n ∧ p.all Char.isDigit
  | 0, s, r => by
    simp only [dropDigits, Option.some_inj]
    constructor
    · rintro rfl
      exact ⟨[], by simp⟩
    · rintro ⟨p, hs, hp, _⟩
      rw [List.length_eq_zero] at hp
      simp [hs, hp]
  | n + 1, [], r => by
    simp only [dropDigits]
    constructor
    · intro h
      cases h
    · rintro ⟨p, hs, hp, _⟩
      rcases p with _ | ⟨c, cs⟩
      · simp at hp
      · simp at hs
  | n + 1, c :: cs, r => by
    unfold dropDigits
    by_cases hd : c.isDigit
    · rw [if_pos hd, dropDigits_eq_some_iff]
      constructor
      · rintro ⟨p, hcs, hlen, hall⟩
        exact ⟨c :: p, by simp [hcs, hlen, hall, hd]⟩
      · rintro ⟨p, hs, hlen, hall⟩
        rcases p with _ | ⟨c', p'⟩
        · simp at hlen
        · simp only [List.cons_append, List.cons.injEq] at hs
          obtain ⟨rfl, hcs⟩ := hs
          refine ⟨p', hcs, by simpa using hlen, ?_⟩
          simp only [List.all_cons, Bool.and_eq_true] at hall
          exact hall.2
    · rw [if_neg hd]
      constructor
      · intro h
        cases h
      · rintro ⟨p, hs, hlen, hall⟩
        rcases p with _ | ⟨c', p'⟩
        · simp at hlen
        · simp only [List.cons_append, List.cons.injEq] at hs
          obtain ⟨rfl, _⟩ := hs
          simp only [List.all_cons, Bool.and_eq_true] at hall
          exact absurd hall.1 hd

/-- The shape of the date-time prefix `\d{4}-\d{2}-\d{2}T` as an explicit
decomposition. -/
def dtShape (p : List Char) : Prop :=
  ∃ d1 d2 d3, p = d1 ++ ['-'] ++ d2 ++ ['-'] ++ d3 ++ ['T']
    ∧ d1.length = 4 ∧ d1.all Char.isDigit
    ∧ d2.length = 2 ∧ d2.all Char.isDigit
    ∧ d3.length = 2 ∧ d3.all Char.isDigit

theorem dtPre_eq_some_iff {s r : List Char} :
    dtPre s = some r ↔ ∃ p, s = p ++ r ∧ dtShape p := by
  unfold dtPre
  constructor
  · intro h
    rcases h1 : dropDigits 4 s with _ | r1
    · rw [h1] at h; cases h
    · rw [h1, Option.some_bind] at h
      rcases h2 : dropLitP ['-'] r1 with _ | r2
      · rw [h2] at h; cases h
      · rw [h2, Option.some_bind] at h
        rcases h3 : dropDigits 2 r2 with _ | r3
        · rw [h3] at h; cases h
        · rw [h3, Option.some_bind] at h
          rcases h4 : dropLitP ['-'] r3 with _ | r4
          · rw [h4] at h; cases h
          · rw [h4, Option.some_bind] at h
            rcases h5 : dropDigits 2 r4 with _ | r5
            · rw [h5] at h; cases h
            · rw [h5, Option.some_bind] at h
              obtain ⟨d1, hs1, hl1, ha1⟩ := dropDigits_eq_some_iff.mp h1
              have hs2 := dropLitP_eq_some_iff.mp h2
              obtain ⟨d2, hs3, hl3, ha3⟩ := dropDigits_eq_some_iff.mp h3
              have hs4 := dropLitP_eq_some_iff.mp h4
              obtain ⟨d3, hs5, hl5, ha5⟩ := dropDigits_eq_some_iff.mp h5
              have hs6 := dropLitP_eq_some_iff.mp h
              refine ⟨d1 ++ ['-'] ++ d2 ++ ['-'] ++ d3 ++ ['T'],
                ?_, d1, d2, d3, rfl, hl1, ha1, hl3, ha3, hl5, ha5⟩
              simp [hs1, hs2, hs3, hs4, hs5, hs6]
  · rintro ⟨p, rfl, d1, d2, d3, rfl, hl1, ha1, hl3, ha3, hl5, ha5⟩
    simp only [List.append_assoc]
    rw [show dropDigits 4 (d1 ++ (['-'] ++ (d2 ++ (['-'] ++ (d3 ++ (['T'] ++ r))))))
        = some (['-'] ++ (d2 ++ (['-'] ++ (d3 ++ (['T'] ++ r))))) from
        dropDigits_eq_some_iff.mpr ⟨d1, rfl, hl1, ha1⟩, Option.some_bind]
    rw [show dropLitP ['-'] (['-'] ++ (d2 ++ (['-'] ++ (d3 ++ (['T'] ++ r)))))
        = some (d2 ++ (['-'] ++ (d3 ++ (['T'] ++ r)))) from
        dropLitP_eq_some_iff.mpr rfl, Option.some_bind]
    rw [show dropDigits 2 (d2 ++ (['-'] ++ (d3 ++ (['T'] ++ r))))
        = some (['-'] ++ (d3 ++ (['T'] ++ r))) from
        dropDigits_eq_some_iff.mpr ⟨d2, rfl, hl3, ha3⟩, Option.some_bind]
    rw [show dropLitP ['-'] (['-'] ++ (d3 ++ (['T'] ++ r)))
        = some (d3 ++ (['T'] ++ r)) from dropLitP_eq_some_iff.mpr rfl, Option.some_bind]
    rw [show dropDigits 2 (d3 ++ (['T'] ++ r)) = some (['T'] ++ r) from
        dropDigits_eq_some_iff.mpr ⟨d3, rfl, hl5, ha5⟩, Option.some_bind]
    exact dropLitP_eq_some_iff.mpr rfl

theorem hexDash_not_space {c : Char} (h : isHexDash c = true) : isSpaceC c = false := by
  by_contra hs
  have hs' : isSpaceC c = true := by
    revert hs
    cases isSpaceC c <;> simp
  simp only [isSpaceC, Bool.or_eq_true, decide_eq_true_eq] at hs'
  rcases hs' with ((((rfl | rfl) | rfl) | rfl) | rfl) | rfl <;> simp [isHexDash] at h

theorem dropWhile_append_of_all {p : Char → Bool} :
    ∀ {l1 l2 : List Char}, l1.all p → (l1 ++ l2).dropWhile p = l2.dropWhile p
  | [], l2, _ => rfl
  | c :: cs, l2, h => by
    simp only [List.all_cons, Bool.and_eq_true] at h
    simp only [List.cons_append, List.dropWhile_cons, h.1, if_pos rfl]
    exact dropWhile_append_of_all h.2

theorem tryMarkerAt_isSome_iff {lit l : List Char} :
    (tryMarkerAt lit l).isSome ↔
      ∃ w rid r, l = lit ++ w ++ rid ++ r ∧ w ≠ [] ∧ w.all isSpaceC
        ∧ rid.length = 36 ∧ rid.all isHexDash := by
  constructor
  · intro h
    unfold tryMarkerAt at h
    split at h
    · simp at h
    · simp at h
    · rename_i c cs hd
      split at h
      · rename_i hsp
        split at h
        · rename_i hcond
          obtain ⟨hlen, hall⟩ := Bool.and_elim_left hcond, Bool.and_elim_right hcond
          refine ⟨c :: cs.takeWhile isSpaceC, (cs.dropWhile isSpaceC).take 36,
            (cs.dropWhile isSpaceC).drop 36, ?_, by simp, ?_, of_decide_eq_true hlen, hall⟩
          · have hl : l = lit ++ (c :: cs) := dropLitP_eq_some_iff.mp hd
            rw [hl]
            simp only [List.cons_append, List.append_assoc, List.take_append_drop]
            rw [List.takeWhile_append_dropWhile]
          · simp only [List.all_cons, Bool.and_eq_true]
            refine ⟨hsp, ?_⟩
            rw [List.all_eq_true]
            intro x hx
            exact List.mem_takeWhile_imp hx
        · simp at h
      · simp at h
  · rintro ⟨w, rid, r, rfl, hw, hws, hrl, hrh⟩
    rcases w with _ | ⟨c, w'⟩
    · simp at hw
    · simp only [List.all_cons, Bool.and_eq_true] at hws
      unfold tryMarkerAt
      rw [show (lit ++ (c :: w') ++ rid ++ r : List Char)
          = lit ++ (c :: (w' ++ (rid ++ r))) by simp,
        (show dropLitP lit (lit ++ (c :: (w' ++ (rid ++ r))))
          = some (c :: (w' ++ (rid ++ r))) from dropLitP_eq_some_iff.mpr rfl)]
      simp only [hws.1, if_pos rfl]
      have hdw : (w' ++ (rid ++ r)).dropWhile isSpaceC = rid ++ r := by
        rw [dropWhile_append_of_all hws.2]
        rcases rid with _ | ⟨d, rid'⟩
        · simp at hrl
        · simp only [List.all_cons, Bool.and_eq_true] at hrh
          simp [List.dropWhile_cons, hexDash_not_space hrh.1]
      rw [hdw, List.take_left' hrl]
      simp [hrl, hrh]

theorem tryMarkerAt_nil {lit : List Char} (hlit : lit ≠ []) :
    tryMarkerAt lit [] = none := by
  rcases lit with _ | ⟨p, ps⟩
  · exact absurd rfl hlit
  · rfl

theorem scanMarker_isSome_iff {lit : List Char} (hlit : lit ≠ []) :
    ∀ {l : List Char}, (scanMarker lit l).isSome ↔
      ∃ m rest, l = m ++ rest ∧ (∀ c ∈ m, c ≠ '\n') ∧ (tryMarkerAt lit rest).isSome
  | [] => by
    simp only [scanMarker, Option.isSome_none, Bool.false_eq_true, false_iff]
    rintro ⟨m, rest, hsplit, hm, htry⟩
    rcases m with _ | ⟨c, m'⟩
    · rcases rest with _ | ⟨c, cs⟩
      · rw [tryMarkerAt_nil hlit] at htry
        simp at htry
      · simp at hsplit
    · simp at hsplit
  | c :: cs => by
    have ih := @scanMarker_isSome_iff lit hlit cs
    constructor
    · intro h
      unfold scanMarker at h
      rcases hl : (if c = '\n' then none else scanMarker lit cs) with _ | r
      · rw [hl] at h
        exact ⟨[], c :: cs, rfl, by simp, h⟩
      · by_cases hnl : c = '\n'
        · rw [if_pos hnl] at hl
          cases hl
        · rw [if_neg hnl] at hl
          have : (scanMarker lit cs).isSome := by
            rw [hl]; rfl
          obtain ⟨m, rest, hsplit, hm, htry⟩ := ih.mp this
          refine ⟨c :: m, rest, by simp [hsplit], ?_, htry⟩
          intro x hx
          rcases hx with _ | hx
          · exact hnl
          · exact hm x (by assumption)
    · rintro ⟨m, rest, hsplit, hm, htry⟩
      unfold scanMarker
      rcases hl : (if c = '\n' then none else scanMarker lit cs) with _ | r
      · simp only
        rcases m with _ | ⟨c', m'⟩
        · simp only [List.nil_append] at hsplit
          rw [hsplit]
          exact htry
        · simp only [List.cons_append, List.cons.injEq] at hsplit
          obtain ⟨rfl, hcs⟩ := hsplit
          have hnl : ¬c = '\n' := hm c (by simp)
          rw [if_neg hnl] at hl
          have : (scanMarker lit cs).isSome := by
            refine ih.mpr ⟨m', rest, hcs, ?_, htry⟩
            intro x hx
            exact hm x (by simp [hx])
          rw [hl] at this
          simp at this
      · simp only
        rfl

/-- The characterization of the compiled marker regexes: a full iff between
the scanner and an explicit decomposition of the line. -/
theorem marker_isSome_iff {lit s : List Char} (hlit : lit ≠ []) :
    ((dtPre s).bind (scanMarker lit)).isSome ↔
      ∃ p m w rid r, s = p ++ m ++ lit ++ w ++ rid ++ r ∧ dtShape p
        ∧ (∀ c ∈ m, c ≠ '\n') ∧ w ≠ [] ∧ w.all isSpaceC
        ∧ rid.length = 36 ∧ rid.all isHexDash := by
  constructor
  · intro h
    rcases hd : dtPre s with _ | rest
    · rw [hd] at h
      simp at h
    · rw [hd, Option.some_bind] at h
      obtain ⟨p, rfl, hp⟩ := dtPre_eq_some_iff.mp hd
      obtain ⟨m, rest2, rfl, hm, htry⟩ := (scanMarker_isSome_iff hlit).mp h
      obtain ⟨w, rid, r, rfl, hw, hws, hrl, hrh⟩ := tryMarkerAt_isSome_iff.mp htry
      exact ⟨p, m, w, rid, r, by simp, hp, hm, hw, hws, hrl, hrh⟩
  · rintro ⟨p, m, w, rid, r, rfl, hp, hm, hw, hws, hrl, hrh⟩
    have hd : dtPre (p ++ m ++ lit ++ w ++ rid ++ r)
        = some (m ++ (lit ++ (w ++ (rid ++ r)))) := by
      rw [dtPre_eq_some_iff]
      exact ⟨p, by simp, hp⟩
    rw [hd, Option.some_bind]
    refine (scanMarker_isSome_iff hlit).mpr ⟨m, lit ++ (w ++ (rid ++ r)), rfl, hm, ?_⟩
    exact tryMarkerAt_isSome_iff.mpr ⟨w, rid, r, by simp, hw, hws, hrl, hrh⟩

/-! ### Spec-side marker syntax (from the interface section of the spec) -/

/-- Drop `n` expected lowercase hexadecimal digits. -/
def dropHexN : Nat → List Char → Option (List Char)
  | 0, l => some l
  | _ + 1, [] => none
  | n + 1, c :: cs => if isHexDigit c then dropHexN n cs else none

/-- Spec-side: a 36-character identifier in the canonical 8-4-4-4-12
hexadecimal grouping. -/
def isCanonUuid (l : List Char) : Bool :=
  ((((((((dropHexN 8 l).bind (dropLitP ['-'])).bind (dropHexN 4)).bind
    (dropLitP ['-'])).bind (dropHexN 4)).bind (dropLitP ['-'])).bind
    (dropHexN 4)).bind (dropLitP ['-'])).bind (dropHexN 12) == some []

/-- Spec-side: the literal text (with its trailing single space) followed by
a canonical identifier, tried at the current position. -/
def specTryMarker (lit : List Char) (l : List Char) : Bool :=
  match dropLitP (lit ++ [' ']) l with
  | some r => isCanonUuid (r.take 36)
  | none => false

/-- Spec-side scan over all positions after the date-time token. -/
def specScanMarker (lit : List Char) : List Char → Bool
  | [] => specTryMarker lit []
  | c :: cs => specTryMarker lit (c :: cs) || specScanMarker lit cs

/-- Spec-side reading of the marker format of §6: a line beginning with an
ISO-style date-time token, followed by the literal `START RequestId: `
(resp. `END RequestId: `), followed by a canonical 8-4-4-4-12 identifier.
(The reading is generous about what may stand between the token and the
literal; the counterexample below fails it under any reading, because the
line contains no canonically-grouped identifier at all.) -/
def specMarkerLine (lit : List Char) (s : List Char) : Bool :=
  match dtPre s with
  | some r => specScanMarker lit r
  | none => false

/-- C8 counterexample: the code's regex accepts any 36 characters drawn
from `[0-9a-f-]` as the identifier — here 36 letters `a` with no dashes —
which is not in the canonical 8-4-4-4-12 grouping, so the claimed syntax
does not recognize the line while the code does. -/
theorem c8_counterexample :
    (startRid ("2024-01-01T00:00:00.000Z START RequestId: aaaaaaaaaaaaaaaaaaaaaaaaaaaaaaaaaaaa".data)).isSome = true
    ∧ specMarkerLine startLit
        ("2024-01-01T00:00:00.000Z START RequestId: aaaaaaaaaaaaaaaaaaaaaaaaaaaaaaaaaaaa".data) = false := by
  constructor
  · decide
  · decide

/-- C8 (amended): a line is recognized as a start (resp. end) marker iff it
decomposes as a `\d{4}-\d{2}-\d{2}T` date-time prefix, any run of
non-newline characters, the literal `START RequestId:` (resp.
`END RequestId:`), one or more whitespace characters, and 36 consecutive
characters each a lowercase hex digit or `-` (the canonical 8-4-4-4-12
grouping is NOT enforced), possibly followed by arbitrary text. -/
theorem c8_amended (s : List Char) :
    ((startRid s).isSome ↔
      ∃ p m w rid r, s = p ++ m ++ startLit ++ w ++ rid ++ r ∧ dtShape p
        ∧ (∀ c ∈ m, c ≠ '\n') ∧ w ≠ [] ∧ w.all isSpaceC
        ∧ rid.length = 36 ∧ rid.all isHexDash)
    ∧ ((endRid s).isSome ↔
      ∃ p m w rid r, s = p ++ m ++ endLit ++ w ++ rid ++ r ∧ dtShape p
        ∧ (∀ c ∈ m, c ≠ '\n') ∧ w ≠ [] ∧ w.all isSpaceC
        ∧ rid.length = 36 ∧ rid.all isHexDash) :=
  ⟨marker_isSome_iff (by decide), marker_isSome_iff (by decide)⟩

/-! ## Claims C5 and C6: sign inference and the mismatch flag -/

theorem mem_rows_eq_mkRow {toDT : List Char → Option ℚ} {df : List Rec0}
    {out : AnalyzeOut} (h : analyze toDT df = .ok out) {row : Row}
    (hrow : row ∈ out.rows) : ∃ i, row = mkRow toDT df i := by
  unfold analyze at h
  split at h
  · cases h
  · split at h
    · cases h
    · split at h
      · cases h
      · split at h
        · cases h
        · split at h
          · cases h
          · cases h
            obtain ⟨i, _, rfl⟩ := List.mem_map.mp hrow
            exact ⟨i, rfl⟩

/-- C5: for every enriched record with both `amount` and `delta` known, the
inferred `amount_sign` is in `{+1, -1}` and minimizes `|delta − sign·amount|`
over both signs, ties resolved to `+1`; with either operand unknown the
sign is unknown. -/
theorem c5_amount_sign (toDT : List Char → Option ℚ) (df : List Rec0)
    (out : AnalyzeOut) (h : analyze toDT df = .ok out) {row : Row}
    (hrow : row ∈ out.rows) :
    (∀ a d, row.amount = some a → row.delta = some d →
      ∃ s, row.amount_sign = some s ∧ (s = 1 ∨ s = -1)
        ∧ (∀ t : ℚ, t = 1 ∨ t = -1 → |d - s * a| ≤ |d - t * a|)
        ∧ (|d - a| = |d + a| → s = 1))
    ∧ ((row.amount = none ∨ row.delta = none) → row.amount_sign = none) := by
  obtain ⟨i, rfl⟩ := mem_rows_eq_mkRow h hrow
  constructor
  · intro a d ha hd
    have hsign : (mkRow toDT df i).amount_sign = best_sign (some a) (some d) := by
      show amount_signF df i = _
      unfold amount_signF
      rw [show fAmt df i = some a from ha, show deltaF df i = some d from hd]
    by_cases hle : |d - a| ≤ |d + a|
    · refine ⟨1, by rw [hsign]; simp [best_sign, hle], Or.inl rfl, ?_, fun _ => rfl⟩
      rintro t (rfl | rfl)
      · exact le_refl _
      · rw [one_mul, neg_one_mul, sub_neg_eq_add]
        exact hle
    · refine ⟨-1, by rw [hsign]; simp [best_sign, hle], Or.inr rfl, ?_, ?_⟩
      · rintro t (rfl | rfl)
        · rw [one_mul, neg_one_mul, sub_neg_eq_add]
          exact le_of_lt (lt_of_not_le hle)
        · exact le_refl _
      · intro heq
        exact absurd (le_of_eq heq) hle
  · intro hnone
    show amount_signF df i = none
    unfold amount_signF best_sign
    rcases hnone with hn | hn
    · rw [show fAmt df i = none from hn]
    · rw [show deltaF df i = none from hn]
      rcases fAmt df i <;> rfl

/-- C6: for every enriched record, `mismatch` is true iff both `delta` and
`expected_delta` are known and differ by more than `1e-6`; in particular an
absent `amount` yields unknown sign and expected delta and a false
mismatch. -/
theorem c6_mismatch (toDT : List Char → Option ℚ) (df : List Rec0)
    (out : AnalyzeOut) (h : analyze toDT df = .ok out) {row : Row}
    (hrow : row ∈ out.rows) :
    (row.mismatch = true ↔ ∃ d e, row.delta = some d ∧ row.expected_delta = some e
      ∧ |d - e| > tol)
    ∧ (row.amount = none →
        row.amount_sign = none ∧ row.expected_delta = none ∧ row.mismatch = false) := by
  obtain ⟨i, rfl⟩ := mem_rows_eq_mkRow h hrow
  have hmis : (mkRow toDT df i).mismatch = mismatchF df i := rfl
  have hdel : (mkRow toDT df i).delta = deltaF df i := rfl
  have hexp : (mkRow toDT df i).expected_delta = expected_deltaF df i := rfl
  constructor
  · rw [hmis, hdel, hexp]
    unfold mismatchF
    rcases hd : deltaF df i with _ | d
    · simp
    · rcases he : expected_deltaF df i with _ | e
      · simp
      · simp only [decide_eq_true_eq, Option.some_inj]
        constructor
        · intro hgt
          exact ⟨d, e, rfl, rfl, hgt⟩
        · rintro ⟨d', e', rfl, rfl, hgt⟩
          exact hgt
  · intro ha
    have hsign : (mkRow toDT df i).amount_sign = none := by
      show amount_signF df i = none
      unfold amount_signF best_sign
      rw [show fAmt df i = none from ha]
    have hexp2 : (mkRow toDT df i).expected_delta = none := by
      show expected_deltaF df i = none
      unfold expected_deltaF
      rw [show fAmt df i = none from ha]
    refine ⟨hsign, hexp2, ?_⟩
    rw [hmis]
    unfold mismatchF
    have : expected_deltaF df i = none := hexp2
    rw [this]
    rcases deltaF df i <;> rfl

/-! ## Concrete inputs for witnesses and counterexamples -/

instance {ε α : Type} [DecidableEq ε] [DecidableEq α] :
    DecidableEq (Except ε α) := fun a b =>
  match a, b with
  | .ok x, .ok y =>
    if h : x = y then .isTrue (by rw [h]) else .isFalse (by simp [h])
  | .error x, .error y =>
    if h : x = y then .isTrue (by rw [h]) else .isFalse (by simp [h])
  | .ok _, .error _ => .isFalse (by simp)
  | .error _, .ok _ => .isFalse (by simp)

/-- A concrete timestamp parser used to instantiate the `toDT` parameter in
witnesses: the digits of the stamp read as one number (monotone on
uniformly formatted ISO stamps). -/
def toDT0 : List Char → Option ℚ :=
  fun l => pyFloat (l.filter (fun c => c.isDigit))

/-- One fully populated record (witness input for C5). -/
def df5 : List Rec0 :=
  [{ requestId := "r1".data, file := "f.gz".data,
     start_ts := some "2024-01-01T00:00:01Z".data,
     oldBalance := some "0".data, newBalance := some "5".data,
     amount := some "5".data,
     walletId := some "w".data, userId := some "u".data }]

unseal Rat.add Rat.mul Rat.sub Rat.inv in
theorem c5_witness :
    ∃ s : ℚ, (mkRow toDT0 df5 0).amount_sign = some s ∧ (s = 1 ∨ s = -1)
      ∧ (∀ t : ℚ, t = 1 ∨ t = -1 → |(5:ℚ) - s * 5| ≤ |5 - t * 5|) := by
  have hok : analyze toDT0 df5
      = .ok { rows := [mkRow toDT0 df5 0], per_user := [mkPerUser toDT0 df5 "u".data] } := by
    decide
  have hrow : mkRow toDT0 df5 0
      ∈ ({ rows := [mkRow toDT0 df5 0], per_user := [mkPerUser toDT0 df5 "u".data] }
          : AnalyzeOut).rows := by
    simp
  obtain ⟨s, h1, h2, h3, _⟩ :=
    (c5_amount_sign toDT0 df5 _ hok hrow).1 5 5 (by decide) (by decide)
  exact ⟨s, h1, h2, h3⟩

/-- Two records, the second lacking the `amount` field in its block text
(witness input for C6). -/
def df6 : List Rec0 :=
  [{ requestId := "r1".data, file := "f.gz".data,
     start_ts := some "2024-01-01T00:00:01Z".data,
     oldBalance := some "0".data, newBalance := some "5".data,
     amount := some "5".data,
     walletId := some "w".data, userId := some "u".data },
   { requestId := "r2".data, file := "f.gz".data,
     start_ts := some "2024-01-01T00:00:02Z".data,
     oldBalance := some "10".data, newBalance := some "15".data,
     amount := none,
     walletId := some "w".data, userId := some "u".data }]

unseal Rat.add Rat.mul Rat.sub Rat.inv in
theorem c6_witness :
    (mkRow toDT0 df6 1).amount = none
      ∧ (mkRow toDT0 df6 1).delta = some 5
      ∧ (mkRow toDT0 df6 1).amount_sign = none
      ∧ (mkRow toDT0 df6 1).expected_delta = none
      ∧ (mkRow toDT0 df6 1).mismatch = false := by
  have hok : analyze toDT0 df6
      = .ok { rows := [mkRow toDT0 df6 0, mkRow toDT0 df6 1],
              per_user := [mkPerUser toDT0 df6 "u".data] } := by
    decide
  have hrow : mkRow toDT0 df6 1
      ∈ ({ rows := [mkRow toDT0 df6 0, mkRow toDT0 df6 1],
           per_user := [mkPerUser toDT0 df6 "u".data] } : AnalyzeOut).rows := by
    simp
  have h := (c6_mismatch toDT0 df6 _ hok hrow).2 (by decide)
  exact ⟨by decide, by decide, h.1, h.2.1, h.2.2⟩

/-! ## Claims C2 and C10: analyze on collections with missing columns

`analyze` is NOT total on such collections: `df['newBalance'] -
df['oldBalance']` (line 107), `df['amount'] * df['amount_sign']`
(line 115) and `df.sort_values(['userId','walletId','ts','requestId'])`
(line 122) access columns unconditionally, so a collection in which such a
field matched in no record raises `KeyError` — contradicting the spec's
error-handling design (field-level failure is never a raised failure) and
the code's own guarded `else` branches at lines 125-126, 138-139 and
158-159, which are unreachable for a missing `userId` column because the
sort at line 122 raises first. -/

/-- A record collection in which the `newBalance` pattern matched in no
record (C2 failing input). -/
def df2 : List Rec0 :=
  [{ requestId := "r1".data, file := "f.gz".data,
     start_ts := some "2024-01-01T00:00:01Z".data,
     oldBalance := some "10".data, amount := some "5".data,
     walletId := some "w".data, userId := some "u".data }]

/-- C2 evaluated at the failing input: with no record carrying a
`newBalance` field, `analyze` raises `KeyError` at line 107 instead of
completing with an unknown sentinel. -/
theorem c2_keyerror_newBalance :
    analyze toDT0 df2 = .error "KeyError: newBalance" := by
  decide

/-- A record collection with balances and amounts but no extracted
`userId` anywhere (C10 failing input). -/
def df10 : List Rec0 :=
  [{ requestId := "r1".data, file := "f.gz".data,
     start_ts := some "2024-01-01T00:00:01Z".data,
     oldBalance := some "10".data, newBalance := some "15".data,
     amount := some "5".data, walletId := some "w".data }]

/-- C10 evaluated at the failing input: with the `userId` column entirely
absent, `analyze` raises `KeyError` at the `sort_values` of line 122
instead of completing with an empty Per-Subscriber Summary. -/
theorem c10_keyerror_userId :
    analyze toDT0 df10 = .error "KeyError: userId" := by
  decide

/-! ## Sort machinery for the grouped claims (C3, C4, C7)

Pandas runs one global lexicographic sort and then groups rows; the spec
describes each group sorted on the suffix of the key that is not constant
on the group.  The bridge is `filter_insertionSort`: filtering the sorted
list to a group equals sorting the filtered group with the suffix
comparator, because the tie-break by original position makes both
relations total orders with a unique sorted arrangement. -/

instance (toDT : List Char → Option ℚ) (df : List Rec0) :
    Batteries.TransCmp (cmpGrp toDT df) := by
  unfold cmpGrp
  infer_instance

instance (toDT : List Char → Option ℚ) (df : List Rec0) :
    Batteries.TransCmp (cmpUser toDT df) := by
  unfold cmpUser
  infer_instance

instance (toDT : List Char → Option ℚ) (df : List Rec0) :
    Batteries.TransCmp (cmpIdx toDT df) := by
  unfold cmpIdx
  infer_instance

theorem cmpGrp_eq_imp {toDT : List Char → Option ℚ} {df : List Rec0} {i j : ℕ}
    (h : cmpGrp toDT df i j = .eq) : i = j := by
  unfold cmpGrp compareLex at h
  simp only [Ordering.then_eq_eq] at h
  exact cmpLin_eq_iff.mp h.2.2

theorem cmpUser_eq_imp {toDT : List Char → Option ℚ} {df : List Rec0} {i j : ℕ}
    (h : cmpUser toDT df i j = .eq) : i = j := by
  unfold cmpUser compareLex at h
  simp only [Ordering.then_eq_eq] at h
  exact cmpGrp_eq_imp h.2

theorem cmpIdx_eq_imp {toDT : List Char → Option ℚ} {df : List Rec0} {i j : ℕ}
    (h : cmpIdx toDT df i j = .eq) : i = j := by
  unfold cmpIdx compareLex at h
  simp only [Ordering.then_eq_eq] at h
  exact cmpUser_eq_imp h.2

/-- Filtering a sorted list commutes with sorting the filtered list, when
the two comparators agree on the kept elements and the second one is
injective at `.eq`. -/
theorem filter_insertionSort (cmp1 cmp2 : ℕ → ℕ → Ordering)
    [inst1 : Batteries.TransCmp cmp1] [inst2 : Batteries.TransCmp cmp2]
    (heq2 : ∀ {i j}, cmp2 i j = .eq → i = j)
    (p : ℕ → Bool) (l : List ℕ)
    (hc : ∀ i j, p i = true → p j = true → cmp1 i j = cmp2 i j) :
    (List.insertionSort (fun i j => cmp1 i j ≠ .gt) l).filter p
      = List.insertionSort (fun i j => cmp2 i j ≠ .gt) (l.filter p) := by
  haveI htot1 : IsTotal ℕ (fun i j => cmp1 i j ≠ .gt) := by
    constructor
    intro a b
    rcases h : cmp1 a b with _ | _ | _
    · exact Or.inl (by simp [h])
    · exact Or.inl (by simp [h])
    · refine Or.inr ?_
      rw [Batteries.OrientedCmp.cmp_eq_gt.mp h]
      simp
  haveI htr1 : IsTrans ℕ (fun i j => cmp1 i j ≠ .gt) :=
    ⟨fun _ _ _ h1 h2 => inst1.le_trans h1 h2⟩
  haveI htot2 : IsTotal ℕ (fun i j => cmp2 i j ≠ .gt) := by
    constructor
    intro a b
    rcases h : cmp2 a b with _ | _ | _
    · exact Or.inl (by simp [h])
    · exact Or.inl (by simp [h])
    · refine Or.inr ?_
      rw [Batteries.OrientedCmp.cmp_eq_gt.mp h]
      simp
  haveI htr2 : IsTrans ℕ (fun i j => cmp2 i j ≠ .gt) :=
    ⟨fun _ _ _ h1 h2 => inst2.le_trans h1 h2⟩
  haveI hanti2 : IsAntisymm ℕ (fun i j => cmp2 i j ≠ .gt) := by
    constructor
    intro a b h1 h2
    rcases h : cmp2 a b with _ | _ | _
    · exact absurd (Batteries.OrientedCmp.cmp_eq_gt.mpr h) h2
    · exact heq2 h
    · exact absurd h h1
  have hperm : ((List.insertionSort (fun i j => cmp1 i j ≠ .gt) l).filter p).Perm
      (List.insertionSort (fun i j => cmp2 i j ≠ .gt) (l.filter p)) := by
    refine ((List.perm_insertionSort _ l).filter p).trans ?_
    exact (List.perm_insertionSort _ (l.filter p)).symm
  have hs1 : List.Sorted (fun i j => cmp2 i j ≠ .gt)
      ((List.insertionSort (fun i j => cmp1 i j ≠ .gt) l).filter p) := by
    have hs : List.Sorted (fun i j => cmp1 i j ≠ .gt)
        (List.insertionSort (fun i j => cmp1 i j ≠ .gt) l) :=
      List.sorted_insertionSort _ l
    have hsub : List.Pairwise (fun i j => cmp1 i j ≠ .gt)
        ((List.insertionSort (fun i j => cmp1 i j ≠ .gt) l).filter p) :=
      List.Pairwise.sublist (List.filter_sublist _) hs
    refine hsub.imp_of_mem ?_
    intro a b ha hb hab
    rw [← hc a b (List.mem_filter.mp ha).2 (List.mem_filter.mp hb).2]
    exact hab
  exact List.eq_of_perm_of_sorted hperm hs1 (List.sorted_insertionSort _ _)

theorem ordEqThen (o : Ordering) : Ordering.eq.then o = o := rfl

theorem find?_eq_head?_filter (p : ℕ → Bool) :
    ∀ l : List ℕ, l.find? p = (l.filter p).head?
  | [] => rfl
  | a :: l => by
    by_cases h : p a
    · rw [List.find?_cons_of_pos _ h, List.filter_cons_of_pos h]
      rfl
    · rw [List.find?_cons_of_neg _ (by simp [h]), List.filter_cons_of_neg (by simp [h]),
        find?_eq_head?_filter p l]

/-- In a list, the first element satisfying `p` after the first occurrence
of `i` is the successor of `i` in the `p`-filtered list. -/
theorem succ_after_filter (p : ℕ → Bool) {i : ℕ} (hp : p i = true) :
    ∀ L : List ℕ,
      ((L.dropWhile (fun j => j != i)).drop 1).find? p
        = (((L.filter p).dropWhile (fun j => j != i)).drop 1).head?
  | [] => rfl
  | a :: L => by
    by_cases ha : a = i
    · subst ha
      rw [List.dropWhile_cons, List.filter_cons_of_pos hp, List.dropWhile_cons,
        if_neg (by simp), if_neg (by simp), List.drop_one, List.drop_one,
        List.tail_cons, List.tail_cons, find?_eq_head?_filter]
    · have hne : (a != i) = true := by simp [ha]
      rw [List.dropWhile_cons, if_pos hne]
      by_cases hpa : p a
      · rw [List.filter_cons_of_pos hpa, List.dropWhile_cons, if_pos hne]
        exact succ_after_filter p hp L
      · rw [List.filter_cons_of_neg (by simp [hpa])]
        exact succ_after_filter p hp L

/-- Spec-side (claim C3): the rows of the `(userId, walletId)` group in
`(ts, requestId)` ascending order with unknown timestamps last (original
position as final tie-break). -/
def specGroupOrdered (toDT : List Char → Option ℚ) (df : List Rec0)
    (u w : List Char) : List ℕ :=
  List.insertionSort (fun i j => cmpGrp toDT df i j ≠ .gt)
    ((List.range df.length).filter (fun j => gKey df j == (some u, some w)))

/-- Spec-side (claim C3): the next record of row `i` in its
`(userId, walletId)` group's ordering; `none` when `userId` or `walletId`
is absent or `i` is the group's last row. -/
def specNextIdx (toDT : List Char → Option ℚ) (df : List Rec0) (i : ℕ) : Option ℕ :=
  match (recAt df i).userId, (recAt df i).walletId with
  | some u, some w =>
    (((specGroupOrdered toDT df u w).dropWhile (fun j => j != i)).drop 1).head?
  | _, _ => none

theorem cmpIdx_eq_cmpGrp_of_gKey {toDT : List Char → Option ℚ} {df : List Rec0}
    {u w : List Char} {i j : ℕ} (hi : gKey df i = (some u, some w))
    (hj : gKey df j = (some u, some w)) :
    cmpIdx toDT df i j = cmpGrp toDT df i j := by
  unfold gKey at hi hj
  simp only [Prod.mk.injEq] at hi hj
  unfold cmpIdx cmpUser compareLex Ordering.byKey
  simp only [hi.1, hj.1, hi.2, hj.2]
  have he : cmpOptLast (cmpLin (α := List Char)) (some u) (some u) = .eq := by
    show cmpLin u u = .eq
    exact cmpLin_eq_iff.mpr rfl
  have he2 : cmpOptLast (cmpLin (α := List Char)) (some w) (some w) = .eq := by
    show cmpLin w w = .eq
    exact cmpLin_eq_iff.mpr rfl
  rw [he, he2, ordEqThen, ordEqThen]

/-- The `groupby(['userId','walletId']).shift(-1)` lookup of `analyze`
equals the spec-side "next record in the group's `(ts, requestId)`
ordering" lookup. -/
theorem next_oldF_eq_spec (toDT : List Char → Option ℚ) (df : List Rec0) (i : ℕ) :
    next_oldF toDT df i = (specNextIdx toDT df i).bind (fOB df) := by
  unfold next_oldF specNextIdx
  rcases hu : (recAt df i).userId with _ | u
  · rfl
  · rcases hw : (recAt df i).walletId with _ | w
    · rfl
    · simp only
      have hkey : gKey df i = (some u, some w) := by
        unfold gKey
        rw [hu, hw]
      congr 1
      rw [show (fun j => gKey df j == gKey df i) = (fun j => gKey df j == (some u, some w)) by
        rw [hkey]]
      have hp : (gKey df i == (some u, some w)) = true := by
        rw [hkey]
        exact beq_self_eq_true _
      rw [succ_after_filter (fun j => gKey df j == (some u, some w)) hp]
      have hfs : (sortedIdx toDT df).filter (fun j => gKey df j == (some u, some w))
          = specGroupOrdered toDT df u w := by
        unfold sortedIdx specGroupOrdered leIdx
        refine filter_insertionSort (cmpIdx toDT df) (cmpGrp toDT df)
          (fun h => cmpGrp_eq_imp h) _ _ ?_
        intro a b hpa hpb
        exact cmpIdx_eq_cmpGrp_of_gKey (beq_iff_eq.mp hpa) (beq_iff_eq.mp hpb)
      rw [hfs]

/-- C3: for every enriched record, `flow_break` is true iff the record has
a next record in its `(userId, walletId)` group ordered by
`(ts, requestId)` (unknown timestamps last), both this record's
`newBalance` and that next record's `oldBalance` are known, and they
differ by more than `1e-6`; records with absent `userId` or `walletId`
have no group and are always false. -/
theorem c3_flow_break (toDT : List Char → Option ℚ) (df : List Rec0)
    (out : AnalyzeOut) (h : analyze toDT df = .ok out) {row : Row}
    (hrow : row ∈ out.rows) :
    row.flow_break = true ↔
      ∃ j a b, specNextIdx toDT df row.idx = some j
        ∧ row.newBalance = some a ∧ fOB df j = some b ∧ |a - b| > tol := by
  obtain ⟨i, rfl⟩ := mem_rows_eq_mkRow h hrow
  show flow_breakF toDT df i = true ↔
    ∃ j a b, specNextIdx toDT df i = some j
      ∧ fNB df i = some a ∧ fOB df j = some b ∧ |a - b| > tol
  unfold flow_breakF
  rw [next_oldF_eq_spec]
  rcases hnext : specNextIdx toDT df i with _ | j
  · rw [Option.none_bind]
    rcases fNB df i with _ | a <;> simp
  · rw [Option.some_bind]
    rcases hob : fOB df j with _ | b
    · rcases fNB df i with _ | a <;> simp [hob]
    · rcases fNB df i with _ | a
      · simp
      · simp only [decide_eq_true_eq, Option.some_inj]
        constructor
        · intro hgt
          exact ⟨j, a, b, rfl, rfl, hob, hgt⟩
        · rintro ⟨j', a', b', hj, ha, hb, hgt⟩
          cases hj
          cases ha
          rw [hob] at hb
          cases hb
          exact hgt

/-- Two records of one `(userId, walletId)` group whose balances do not
carry over (witness input for C3): `newBalance 100` then `oldBalance 90`. -/
def df3 : List Rec0 :=
  [{ requestId := "a1".data, file := "f.gz".data,
     start_ts := some "2024-01-01T00:00:01Z".data,
     oldBalance := some "0".data, newBalance := some "100".data,
     amount := some "100".data,
     walletId := some "w".data, userId := some "v".data },
   { requestId := "a2".data, file := "f.gz".data,
     start_ts := some "2024-01-01T00:00:02Z".data,
     oldBalance := some "90".data, newBalance := some "80".data,
     amount := some "10".data,
     walletId := some "w".data, userId := some "v".data }]

unseal Rat.add Rat.mul Rat.sub Rat.inv in
theorem c3_witness : (mkRow toDT0 df3 0).flow_break = true := by
  have hok : analyze toDT0 df3
      = .ok { rows := [mkRow toDT0 df3 0, mkRow toDT0 df3 1],
              per_user := [mkPerUser toDT0 df3 "v".data] } := by
    decide
  have hrow : mkRow toDT0 df3 0
      ∈ ({ rows := [mkRow toDT0 df3 0, mkRow toDT0 df3 1],
           per_user := [mkPerUser toDT0 df3 "v".data] } : AnalyzeOut).rows := by
    simp
  refine (c3_flow_break toDT0 df3 _ hok hrow).mpr ⟨1, 100, 90, ?_, ?_, ?_, ?_⟩
  · decide
  · decide
  · decide
  · decide

/-! ## Claim C4: per-user statistical anomaly detection -/

/-- Spec-side (claim C4): the known `delta` values of the `userId` group of
`u`, taken over the ORIGINAL record collection (no sorting). -/
def specKnownDeltas (df : List Rec0) (u : List Char) : List ℚ :=
  ((List.range df.length).filter (fun i => (recAt df i).userId == some u)).filterMap
    (deltaF df)

/-- Spec-side (claim C4): the z-score anomaly decision for a record of
group `u` with delta `x`: no flag with fewer than 5 known deltas, no flag
for a degenerate (zero sample variance) distribution, otherwise flag iff
the known delta is more than 3 sample standard deviations from the sample
mean (denominator `n−1`), stated squared to stay in ℚ. -/
def specDeltaAnomaly (df : List Rec0) (u : List Char) (x : Option ℚ) : Bool :=
  if (specKnownDeltas df u).length < 5 then false
  else if svarQ (specKnownDeltas df u) = 0 then false
  else
    match x with
    | some d => decide ((d - meanQ (specKnownDeltas df u))
        * (d - meanQ (specKnownDeltas df u)) > 9 * svarQ (specKnownDeltas df u))
    | none => false

theorem knownDeltas_perm (toDT : List Char → Option ℚ) (df : List Rec0)
    (u : List Char) : (knownDeltas toDT df u).Perm (specKnownDeltas df u) := by
  unfold knownDeltas userRows specKnownDeltas sortedIdx
  exact List.Perm.filterMap _ ((List.perm_insertionSort _ _).filter _)

theorem meanQ_perm {l1 l2 : List ℚ} (h : l1.Perm l2) : meanQ l1 = meanQ l2 := by
  unfold meanQ
  rw [h.sum_eq, h.length_eq]

theorem svarQ_perm {l1 l2 : List ℚ} (h : l1.Perm l2) : svarQ l1 = svarQ l2 := by
  unfold svarQ
  rw [meanQ_perm h, (h.map _).sum_eq, h.length_eq]

/-- C4: for every enriched record belonging to a `userId` group, the
`delta_anomaly` flag equals the spec's per-group rule computed over the
unsorted record collection — false when the group has fewer than 5 known
deltas, false when the sample variance is zero, else true exactly when the
record's known delta deviates from the group's sample mean by more than 3
sample standard deviations (records with unknown delta are never
flagged). -/
theorem c4_delta_anomaly (toDT : List Char → Option ℚ) (df : List Rec0)
    (out : AnalyzeOut) (h : analyze toDT df = .ok out) {row : Row}
    (hrow : row ∈ out.rows) {u : List Char} (hu : row.rec0.userId = some u) :
    row.delta_anomaly = specDeltaAnomaly df u row.delta := by
  obtain ⟨i, rfl⟩ := mem_rows_eq_mkRow h hrow
  have hu' : (recAt df i).userId = some u := hu
  show delta_anomalyF toDT df i = specDeltaAnomaly df u (deltaF df i)
  have hperm := knownDeltas_perm toDT df u
  simp only [delta_anomalyF, specDeltaAnomaly, hu']
  rw [hperm.length_eq, meanQ_perm hperm, svarQ_perm hperm]

unseal Rat.add Rat.mul Rat.sub Rat.inv in
theorem c4_witness :
    (mkRow toDT0 df5 0).delta_anomaly
        = specDeltaAnomaly df5 "u".data (mkRow toDT0 df5 0).delta
      ∧ (mkRow toDT0 df5 0).delta_anomaly = false := by
  have hok : analyze toDT0 df5
      = .ok { rows := [mkRow toDT0 df5 0], per_user := [mkPerUser toDT0 df5 "u".data] } := by
    decide
  have hrow : mkRow toDT0 df5 0
      ∈ ({ rows := [mkRow toDT0 df5 0], per_user := [mkPerUser toDT0 df5 "u".data] }
          : AnalyzeOut).rows := by
    simp
  refine ⟨c4_delta_anomaly toDT0 df5 _ hok hrow (by decide), by decide⟩

/-! ## Claim C7: the Per-Subscriber Summary's last balance -/

theorem mem_per_user_eq_mkPerUser {toDT : List Char → Option ℚ} {df : List Rec0}
    {out : AnalyzeOut} (h : analyze toDT df = .ok out) {pu : PerUser}
    (hpu : pu ∈ out.per_user) : ∃ u, pu = mkPerUser toDT df u := by
  unfold analyze at h
  split at h
  · cases h
  · split at h
    · cases h
    · split at h
      · cases h
      · split at h
        · cases h
        · split at h
          · cases h
          · cases h
            obtain ⟨u, _, rfl⟩ := List.mem_map.mp hpu
            exact ⟨u, rfl⟩

/-- Spec-side (amended C7): the rows of the `userId` group of `u` in the
engine's within-user order `(walletId, ts, requestId)` with absent wallet
ids and unknown timestamps last. -/
def userOrdered (toDT : List Char → Option ℚ) (df : List Rec0) (u : List Char) : List ℕ :=
  List.insertionSort (fun i j => cmpUser toDT df i j ≠ .gt)
    ((List.range df.length).filter (fun i => (recAt df i).userId == some u))

theorem userRows_eq_userOrdered (toDT : List Char → Option ℚ) (df : List Rec0)
    (u : List Char) : userRows toDT df u = userOrdered toDT df u := by
  unfold userRows userOrdered sortedIdx leIdx
  refine filter_insertionSort (cmpIdx toDT df) (cmpUser toDT df)
    (fun h => cmpUser_eq_imp h) _ _ ?_
  intro a b hpa hpb
  have ha : (recAt df a).userId = some u := beq_iff_eq.mp hpa
  have hb : (recAt df b).userId = some u := beq_iff_eq.mp hpb
  unfold cmpIdx compareLex Ordering.byKey
  simp only [ha, hb]
  rw [show cmpOptLast (cmpLin (α := List Char)) (some u) (some u) = .eq from
    cmpLin_eq_iff.mpr rfl, ordEqThen]

/-- Spec-side (claim C7 as stated): the last chronologically-known non-NaN
`newBalance` of the user — group the records of `u`, order by `(ts,
requestId)` with unknown timestamps last, and take the last known value. -/
def chronoLastBalance (toDT : List Char → Option ℚ) (df : List Rec0)
    (u : List Char) : Option ℚ :=
  ((List.insertionSort (fun i j => cmpGrp toDT df i j ≠ .gt)
    ((List.range df.length).filter (fun i => (recAt df i).userId == some u))).filterMap
      (fNB df)).getLast?

/-- Two records of one user in two wallets, where the wallet order
disagrees with the chronological order (C7 counterexample input): wallet
`a` at the LATER time holds balance 100, wallet `b` at the EARLIER time
holds balance 50. -/
def df7 : List Rec0 :=
  [{ requestId := "r1".data, file := "f.gz".data,
     start_ts := some "2024-01-01T00:00:02Z".data,
     oldBalance := some "0".data, newBalance := some "100".data,
     amount := some "100".data,
     walletId := some "a".data, userId := some "u".data },
   { requestId := "r2".data, file := "f.gz".data,
     start_ts := some "2024-01-01T00:00:01Z".data,
     oldBalance := some "0".data, newBalance := some "50".data,
     amount := some "50".data,
     walletId := some "b".data, userId := some "u".data }]

unseal Rat.add Rat.mul Rat.sub Rat.inv in
/-- C7 counterexample: `last_balance` is taken from the frame sorted by
`(userId, walletId, ts, requestId)`, so within one user it is
walletId-major, not chronological: here the summary reports 50 (wallet
`b`, earlier time) while the chronologically last known balance is 100
(wallet `a`, later time). -/
theorem c7_counterexample :
    ∃ out, analyze toDT0 df7 = .ok out
      ∧ out.per_user.map (fun p => (p.userId, p.last_balance))
          = [("u".data, some 50)]
      ∧ chronoLastBalance toDT0 df7 "u".data = some 100
      ∧ (some (50:ℚ) ≠ some (100:ℚ)) := by
  refine ⟨{ rows := [mkRow toDT0 df7 0, mkRow toDT0 df7 1],
            per_user := [mkPerUser toDT0 df7 "u".data] }, ?_, ?_, ?_, ?_⟩
  · decide
  · decide
  · decide
  · decide

/-- C7 (amended): for every row of the Per-Subscriber Summary,
`last_balance` is the last non-unknown `newBalance` of the user's records
in the engine's within-user order `(walletId, ts, requestId)` — walletId
before time, NOT purely chronological — and `final_overdraft` is true iff
`last_balance` is known and negative (unknown yields false). -/
theorem c7_amended (toDT : List Char → Option ℚ) (df : List Rec0)
    (out : AnalyzeOut) (h : analyze toDT df = .ok out) {pu : PerUser}
    (hpu : pu ∈ out.per_user) :
    pu.last_balance
        = ((userOrdered toDT df pu.userId).filterMap (fNB df)).getLast?
      ∧ pu.final_overdraft = (match pu.last_balance with
          | some b => decide (b < 0)
          | none => false) := by
  obtain ⟨u, rfl⟩ := mem_per_user_eq_mkPerUser h hpu
  constructor
  · show ((userRows toDT df u).filterMap (fNB df)).getLast? = _
    rw [userRows_eq_userOrdered]
    rfl
  · rfl

unseal Rat.add Rat.mul Rat.sub Rat.inv in
theorem c7_amended_witness :
    (mkPerUser toDT0 df7 "u".data).last_balance
        = ((userOrdered toDT0 df7 ((mkPerUser toDT0 df7 "u".data).userId)).filterMap
            (fNB df7)).getLast?
      ∧ (mkPerUser toDT0 df7 "u".data).final_overdraft = false := by
  have hok : analyze toDT0 df7
      = .ok { rows := [mkRow toDT0 df7 0, mkRow toDT0 df7 1],
              per_user := [mkPerUser toDT0 df7 "u".data] } := by
    decide
  have hpu : mkPerUser toDT0 df7 "u".data
      ∈ ({ rows := [mkRow toDT0 df7 0, mkRow toDT0 df7 1],
           per_user := [mkPerUser toDT0 df7 "u".data] } : AnalyzeOut).per_user := by
    simp
  have h := c7_amended toDT0 df7 _ hok hpu
  refine ⟨h.1, ?_⟩
  rw [h.2]
  decide

end Calo
